import Mathlib

set_option linter.unreachableTactic false
set_option linter.unusedTactic false

/-!
Shallow embedding of the `Vector<T>` dynamic-array container from `src/vector.h`
(with the variant operations of `src/unnamed/part_000` where they differ), and
proofs of the specification claims about it.

A raw buffer is modelled as a capacity together with a slot map `Nat → Option α`:
`none` is an uninitialized slot, `some x` a live constructed element of value `x`.
Each `std::` memory primitive used by the source (`construct_at`, `destroy_at`,
`destroy_n`, `uninitialized_copy_n` / `uninitialized_move_n`,
`uninitialized_value_construct_n`, `std::move` on a range, `std::move_backward`)
is given its pointwise denotation on that model, and the `Vector` member
functions are composed from them exactly as the source composes the primitives.
-/

namespace CV

/-- Modelled from the spec: `RawMemory<T>` lives in `rawmemory.h`, which is not
under `src/`; spec §4.1 specifies it as an owned block of `capacity`
element-slots of uninitialized storage, with O(1) swap and a move that leaves
the source with capacity 0. A buffer is a capacity plus a slot map;
slot `none` is uninitialized memory, `some x` a live element. -/
structure RawMemory (α : Type) where
  capacity : Nat
  buf : Nat → Option α

namespace RawMemory

/-- Modelled from the spec: `RawMemory(n)` allocates `n` uninitialized slots. -/
def allocate (α : Type) (n : Nat) : RawMemory α :=
  ⟨n, fun _ => none⟩

/-- Write one slot (used for both `std::construct_at`, with `some x`, and
`std::destroy_at`, with `none`). -/
def set (m : RawMemory α) (i : Nat) (o : Option α) : RawMemory α :=
  ⟨m.capacity, fun j => if j = i then o else m.buf j⟩

/-- `std::construct_at(m + i, x)`: placement-construct the value `x` in slot `i`. -/
def constructAt (m : RawMemory α) (i : Nat) (x : α) : RawMemory α :=
  m.set i (some x)

/-- `std::destroy_at(m + i)`: end the lifetime of the element in slot `i`. -/
def destroyAt (m : RawMemory α) (i : Nat) : RawMemory α :=
  m.set i none

/-- `std::destroy_n(m + s, n)`: destroy the `n` elements in slots `[s, s+n)`. -/
def destroyN (m : RawMemory α) (s n : Nat) : RawMemory α :=
  ⟨m.capacity, fun j => if s ≤ j ∧ j < s + n then none else m.buf j⟩

/-- `std::uninitialized_value_construct_n(m + s, n)`: default-construct into
slots `[s, s+n)`. -/
def valueConstructN [Inhabited α] (m : RawMemory α) (s n : Nat) : RawMemory α :=
  ⟨m.capacity, fun j => if s ≤ j ∧ j < s + n then some default else m.buf j⟩

/-- `std::uninitialized_copy_n(src + sOff, n, dst + dOff)` (and likewise
`std::uninitialized_move_n`, which transfers the same values): construct the `n`
source values into destination slots `[dOff, dOff + n)`. The source and
destination buffers do not overlap on every use in the source (the source reads
the old buffer, the destination is freshly allocated), so the loop's denotation
is pointwise. -/
def transferN (src : RawMemory α) (sOff n : Nat) (dst : RawMemory α) (dOff : Nat) :
    RawMemory α :=
  ⟨dst.capacity, fun j =>
    if dOff ≤ j ∧ j < dOff + n then src.buf (sOff + (j - dOff)) else dst.buf j⟩

/-- `std::move(m + first + 1, m + first + 1 + n, m + first)` as used by
`Erase`: move-assign slots `[first+1, first+1+n)` one slot toward the front,
front-to-back. Each read is of a slot not yet overwritten (the source index
always exceeds every already-written index), so the denotation is pointwise in
the original buffer. Moved-from slots keep their value (valid but unspecified;
they are destroyed or overwritten afterwards). -/
def moveFrontN (m : RawMemory α) (first n : Nat) : RawMemory α :=
  ⟨m.capacity, fun j => if first ≤ j ∧ j < first + n then m.buf (j + 1) else m.buf j⟩

/-- `std::move_backward(m + first, m + first + n, m + first + n + 1)` as used by
`Emplace`: move-assign slots `[first, first+n)` one slot toward the tail,
back-to-front. Each read is of a slot not yet overwritten (the source index is
below every already-written index), so the denotation is pointwise in the
original buffer. -/
def moveBackN (m : RawMemory α) (first n : Nat) : RawMemory α :=
  ⟨m.capacity, fun j =>
    if first + 1 ≤ j ∧ j < first + 1 + n then m.buf (j - 1) else m.buf j⟩

end RawMemory

/-- Fallible element transfer, modelling `std::uninitialized_move_n` /
`std::uninitialized_copy_n` when the element's move/copy constructor may throw
(`step a` is `Except.error ()` when constructing from `a` throws). Constructs
the `n` source values `src sOff, src (sOff+1), ...` into destination slots
`dOff, dOff+1, ...` in order. On a throw, the standard requires the algorithm
to destroy the objects it already constructed before propagating, so the
`Except.error` result carries the destination buffer with this call's
constructed prefix destroyed again. An uninitialized source slot constructs
nothing (it only arises outside the representation invariant). -/
def uninitTransferN (step : α → Except Unit α) (src : Nat → Option α) (sOff : Nat)
    (dst : RawMemory α) (dOff : Nat) : Nat → Except (RawMemory α) (RawMemory α)
  | 0 => Except.ok dst
  | n + 1 =>
    match src sOff with
    | none =>
      match uninitTransferN step src (sOff + 1) (dst.set dOff none) (dOff + 1) n with
      | Except.ok d => Except.ok d
      | Except.error d => Except.error (d.set dOff none)
    | some a =>
      match step a with
      | Except.error _ => Except.error dst
      | Except.ok b =>
        match uninitTransferN step src (sOff + 1) (dst.set dOff (some b)) (dOff + 1) n with
        | Except.ok d => Except.ok d
        | Except.error d => Except.error (d.set dOff none)

/-- `Vector<T>` from `src/vector.h`: a `RawMemory` buffer plus the live count
`size_`. -/
structure Vector (α : Type) where
  data_ : RawMemory α
  size_ : Nat

namespace Vector

/-- `Size()`. -/
def Size (v : Vector α) : Nat := v.size_

/-- `Capacity()`, i.e. `data_.Capacity()`. -/
def Capacity (v : Vector α) : Nat := v.data_.capacity

/-- `data_[i]` viewed as a slot: `some x` when a live element `x` is there. -/
def elemAt (v : Vector α) (i : Nat) : Option α := v.data_.buf i

/-- The representation invariant of the container (spec §3): `size_ ≤ capacity`,
the first `size_` slots hold live elements, and the slots from `size_` up to
`capacity` are uninitialized. -/
def WF (v : Vector α) : Prop :=
  v.size_ ≤ v.Capacity ∧
    (∀ i, i < v.size_ → (v.elemAt i).isSome = true) ∧
    (∀ i, i < v.Capacity → v.size_ ≤ i → v.elemAt i = none)

instance (v : Vector α) [DecidableEq α] : Decidable v.WF := by
  unfold WF
  exact inferInstance

/-- `Vector()` (default constructor): no storage, size 0. -/
def empty (α : Type) : Vector α := ⟨⟨0, fun _ => none⟩, 0⟩

/-- `Vector(size_t size)`: allocate `size` slots and value-construct them. -/
def mkSized (α : Type) [Inhabited α] (n : Nat) : Vector α :=
  ⟨(RawMemory.allocate α n).valueConstructN 0 n, n⟩

/-- `Vector(const Vector&)`: allocate `other.size_` slots and copy-construct
the elements. -/
def copyCtor (other : Vector α) : Vector α :=
  ⟨other.data_.transferN 0 other.size_ (RawMemory.allocate α other.size_) 0,
    other.size_⟩

/-- `Vector(Vector&&)`: take the storage and size (`RawMemory` move leaves the
source with capacity 0, per spec §4.1); `other.size_ = 0`. Returns the pair
(constructed vector, source after the move). -/
def moveCtor (other : Vector α) : Vector α × Vector α :=
  (⟨other.data_, other.size_⟩, ⟨⟨0, fun _ => none⟩, 0⟩)

/-- `Swap`: exchange storage and size. Returns the pair (this, other) after. -/
def Swap (v other : Vector α) : Vector α × Vector α :=
  (⟨other.data_, other.size_⟩, ⟨v.data_, v.size_⟩)

/-- `Reserve(new_capacity)`: no-op when `new_capacity ≤ Capacity()`; otherwise
allocate `new_capacity` slots, transfer the `size_` elements
(`ShiftDataToNewMemory`), destroy the originals and swap buffers (the old
buffer is discarded). -/
def Reserve (v : Vector α) (newCapacity : Nat) : Vector α :=
  if newCapacity ≤ v.Capacity then v
  else
    ⟨v.data_.transferN 0 v.size_ (RawMemory.allocate α newCapacity) 0, v.size_⟩

/-- `Resize(new_size)` from `src/vector.h`: `Reserve` when the new size exceeds
capacity, then value-construct the new tail or destroy the excess tail, and set
`size_`. -/
def Resize [Inhabited α] (v : Vector α) (newSize : Nat) : Vector α :=
  let v1 := if v.Capacity < newSize then v.Reserve newSize else v
  if v1.size_ < newSize then
    ⟨v1.data_.valueConstructN v1.size_ (newSize - v1.size_), newSize⟩
  else
    ⟨v1.data_.destroyN newSize (v1.size_ - newSize), newSize⟩

/-- `Resize(new_size)` from `src/unnamed/part_000`: destroy the excess tail when
shrinking; `Reserve` then value-construct the tail when growing; no-op when
equal. -/
def ResizeB [Inhabited α] (v : Vector α) (newSize : Nat) : Vector α :=
  if newSize < v.size_ then
    ⟨v.data_.destroyN newSize (v.size_ - newSize), newSize⟩
  else if v.size_ < newSize then
    let v1 := v.Reserve newSize
    ⟨v1.data_.valueConstructN v1.size_ (newSize - v1.size_), newSize⟩
  else v

/-- `Emplace(pos, args...)` from `src/vector.h`, with `offset = pos - cbegin()`.
Reallocating path (`size_ == Capacity()`): allocate `size_ == 0 ? 1 : size_*2`
slots, construct the new element at `offset` in the new buffer, transfer the
prefix `[0, offset)` and the suffix `[offset, size_)` around it, destroy the
old elements and swap. In-place path: construct at `end()` when `pos == cend()`;
otherwise build the temporary, move-construct the last element into the next
free slot, `move_backward` the range `[offset, size_-1)` one slot tailward, and
move-assign the temporary into slot `offset`. Returns
(vector after, returned position `begin() + offset`). -/
def Emplace (v : Vector α) (offset : Nat) (x : α) : Vector α × Nat :=
  if v.size_ = v.Capacity then
    let newData0 := RawMemory.allocate α (if v.size_ = 0 then 1 else v.size_ * 2)
    let newData1 := newData0.constructAt offset x
    let newData2 := v.data_.transferN 0 offset newData1 0
    let newData3 := v.data_.transferN offset (v.size_ - offset) newData2 (offset + 1)
    (⟨newData3, v.size_ + 1⟩, offset)
  else
    if offset = v.size_ then
      (⟨v.data_.constructAt v.size_ x, v.size_ + 1⟩, offset)
    else
      let b1 := v.data_.set v.size_ (v.data_.buf (v.size_ - 1))
      let b2 := b1.moveBackN offset (v.size_ - 1 - offset)
      let b3 := b2.constructAt offset x
      (⟨b3, v.size_ + 1⟩, offset)

/-- `Insert(pos, value)`: forwards to `Emplace`. -/
def Insert (v : Vector α) (offset : Nat) (x : α) : Vector α × Nat :=
  v.Emplace offset x

/-- `Erase(pos)` from `src/vector.h`, with `offset = pos - cbegin()`:
`std::move(begin()+offset+1, end(), begin()+offset)`, then
`std::destroy_at(data_.GetAddress() + offset)`, decrement `size_`, return
`begin() + offset`. (Note the source destroys slot `offset`, not the vacated
last slot.) Returns (vector after, returned position). -/
def Erase (v : Vector α) (offset : Nat) : Vector α × Nat :=
  let b1 := v.data_.moveFrontN offset (v.size_ - (offset + 1))
  let b2 := b1.destroyAt offset
  (⟨b2, v.size_ - 1⟩, offset)

/-- `EmplaceBack(args...)` from `src/vector.h`: `Emplace(end(), ...)`, returning
`*it`; modelled as (vector after, index of the new element). -/
def EmplaceBack (v : Vector α) (x : α) : Vector α × Nat :=
  v.Emplace v.size_ x

/-- `PushBack(value)` from `src/vector.h`: forwards to `EmplaceBack`. -/
def PushBack (v : Vector α) (x : α) : Vector α :=
  (v.EmplaceBack x).1

/-- `PushBack(value)` from `src/unnamed/part_000`: construct directly into the
next free slot when `size_ < Capacity()`, else `ReallocateAndPush`: transfer
the elements into a fresh buffer of `size_ == 0 ? 1 : size_*2` slots, construct
the new value at slot `size_`, destroy the old elements, swap, increment. -/
def PushBackB (v : Vector α) (x : α) : Vector α :=
  if v.size_ < v.Capacity then
    ⟨v.data_.constructAt v.size_ x, v.size_ + 1⟩
  else
    let dataCopy :=
      v.data_.transferN 0 v.size_
        (RawMemory.allocate α (if v.size_ = 0 then 1 else v.size_ * 2)) 0
    ⟨dataCopy.constructAt v.size_ x, v.size_ + 1⟩

/-- `PopBack()` (identical in `src/vector.h` and `src/unnamed/part_000`):
`assert(size_ > 0)`, `std::destroy_at(data_ + size_ - 1)`, decrement `size_`.
The assertion is modelled by returning `none` when `size_ = 0`. -/
def PopBack (v : Vector α) : Option (Vector α) :=
  if v.size_ = 0 then none
  else some ⟨v.data_.destroyAt (v.size_ - 1), v.size_ - 1⟩

/-- `Reserve(new_capacity)` with a fallible element transfer (`step`) and a
fallible allocation (`allocOk = false` models `RawMemory`'s constructor
throwing on out-of-memory). An `Except.error` result models the exception
propagating to the caller; its payload is the state of `*this` at propagation
time together with the new storage's contents at the moment its `RawMemory`
destructor releases it (capacity 0 and no slots when the allocation itself
failed). The source has no try/catch in `Reserve`: stack unwinding releases
`new_data`, and `std::uninitialized_move_n`/`copy_n` has already destroyed the
prefix it constructed. -/
def ReserveF (step : α → Except Unit α) (allocOk : Bool) (v : Vector α)
    (newCapacity : Nat) : Except (Vector α × RawMemory α) (Vector α) :=
  if newCapacity ≤ v.Capacity then Except.ok v
  else if allocOk then
    match uninitTransferN step v.data_.buf 0 (RawMemory.allocate α newCapacity) 0
        v.size_ with
    | Except.error nd => Except.error (v, nd)
    | Except.ok nd => Except.ok ⟨nd, v.size_⟩
  else Except.error (v, ⟨0, fun _ => none⟩)

/-- The reallocating path of `Emplace(pos, args...)` (`size_ == Capacity()`)
with fallible allocation (`allocOk`), fallible construction of the inserted
element (`mk`, modelling `std::construct_at(new_data + offset, args...)`
throwing) and fallible element transfer (`step`). The two `try`/`catch`
blocks of the source are mirrored: on a prefix-transfer failure, destroy the
directly-constructed inserted element (`destroy_n(new_data + offset, 1)`) and
rethrow; on a suffix-transfer failure, destroy slots `[0, offset + 1)`
(`destroy_n(new_data.GetAddress(), offset + 1)`) and rethrow. The
`Except.error` payload is as in `ReserveF`. -/
def EmplaceReallocF (step : α → Except Unit α) (mk : Except Unit α) (allocOk : Bool)
    (v : Vector α) (offset : Nat) : Except (Vector α × RawMemory α) (Vector α × Nat) :=
  if allocOk then
    let nd0 := RawMemory.allocate α (if v.size_ = 0 then 1 else v.size_ * 2)
    match mk with
    | Except.error _ => Except.error (v, nd0)
    | Except.ok x =>
      let nd1 := nd0.constructAt offset x
      match uninitTransferN step v.data_.buf 0 nd1 0 offset with
      | Except.error ndf => Except.error (v, ndf.destroyAt offset)
      | Except.ok nd2 =>
        match uninitTransferN step v.data_.buf offset nd2 (offset + 1)
            (v.size_ - offset) with
        | Except.error ndf => Except.error (v, ndf.destroyN 0 (offset + 1))
        | Except.ok nd3 => Except.ok (⟨nd3, v.size_ + 1⟩, offset)
  else Except.error (v, ⟨0, fun _ => none⟩)

/-- The vector state observed by the caller when the operation raised
(`Except.error`); `dflt` is returned in the no-exception case. -/
def errVec (r : Except (Vector α × RawMemory α) β) (dflt : Vector α) : Vector α :=
  match r with
  | Except.error e => e.1
  | Except.ok _ => dflt

/-- When the operation raised, the new storage that is about to be released
holds no live element (every element constructed in it was destroyed). -/
def errStorageDead (r : Except (Vector α × RawMemory α) β) : Prop :=
  match r with
  | Except.error e => ∀ j, e.2.buf j = none
  | Except.ok _ => True

end Vector

/-- A concrete `Vector Nat` whose live elements are the entries of `l` and whose
capacity is `cap` (used for concrete evaluations). -/
def ofList (l : List Nat) (cap : Nat) : Vector Nat :=
  ⟨⟨cap, fun j => l.get? j⟩, l.length⟩

@[simp] theorem RawMemory.allocate_capacity (α : Type) (n : Nat) :
    (RawMemory.allocate α n).capacity = n := rfl

@[simp] theorem RawMemory.allocate_buf (α : Type) (n j : Nat) :
    (RawMemory.allocate α n).buf j = none := rfl

@[simp] theorem RawMemory.set_capacity (m : RawMemory α) (i : Nat) (o : Option α) :
    (m.set i o).capacity = m.capacity := rfl

@[simp] theorem RawMemory.set_buf (m : RawMemory α) (i : Nat) (o : Option α) (j : Nat) :
    (m.set i o).buf j = if j = i then o else m.buf j := rfl

@[simp] theorem RawMemory.constructAt_eq (m : RawMemory α) (i : Nat) (x : α) :
    m.constructAt i x = m.set i (some x) := rfl

@[simp] theorem RawMemory.destroyAt_eq (m : RawMemory α) (i : Nat) :
    m.destroyAt i = m.set i none := rfl

@[simp] theorem RawMemory.destroyN_capacity (m : RawMemory α) (s n : Nat) :
    (m.destroyN s n).capacity = m.capacity := rfl

@[simp] theorem RawMemory.destroyN_buf (m : RawMemory α) (s n j : Nat) :
    (m.destroyN s n).buf j = if s ≤ j ∧ j < s + n then none else m.buf j := rfl

@[simp] theorem RawMemory.valueConstructN_capacity [Inhabited α] (m : RawMemory α)
    (s n : Nat) : (m.valueConstructN s n).capacity = m.capacity := rfl

@[simp] theorem RawMemory.valueConstructN_buf [Inhabited α] (m : RawMemory α)
    (s n j : Nat) :
    (m.valueConstructN s n).buf j =
      if s ≤ j ∧ j < s + n then some default else m.buf j := rfl

@[simp] theorem RawMemory.transferN_capacity (src : RawMemory α) (sOff n : Nat)
    (dst : RawMemory α) (dOff : Nat) :
    (src.transferN sOff n dst dOff).capacity = dst.capacity := rfl

@[simp] theorem RawMemory.transferN_buf (src : RawMemory α) (sOff n : Nat)
    (dst : RawMemory α) (dOff j : Nat) :
    (src.transferN sOff n dst dOff).buf j =
      if dOff ≤ j ∧ j < dOff + n then src.buf (sOff + (j - dOff)) else dst.buf j := rfl

@[simp] theorem RawMemory.moveFrontN_capacity (m : RawMemory α) (first n : Nat) :
    (m.moveFrontN first n).capacity = m.capacity := rfl

@[simp] theorem RawMemory.moveFrontN_buf (m : RawMemory α) (first n j : Nat) :
    (m.moveFrontN first n).buf j =
      if first ≤ j ∧ j < first + n then m.buf (j + 1) else m.buf j := rfl

@[simp] theorem RawMemory.moveBackN_capacity (m : RawMemory α) (first n : Nat) :
    (m.moveBackN first n).capacity = m.capacity := rfl

@[simp] theorem RawMemory.moveBackN_buf (m : RawMemory α) (first n j : Nat) :
    (m.moveBackN first n).buf j =
      if first + 1 ≤ j ∧ j < first + 1 + n then m.buf (j - 1) else m.buf j := rfl

/-- On a transfer failure, `uninitTransferN` hands back the destination buffer
with every slot it had constructed destroyed again: each slot is either dead or
exactly what it was in the destination buffer the call started from. -/
theorem uninitTransferN_error_shape (step : α → Except Unit α) (src : Nat → Option α)
    (n : Nat) :
    ∀ (sOff : Nat) (dst : RawMemory α) (dOff : Nat) (d : RawMemory α),
      uninitTransferN step src sOff dst dOff n = Except.error d →
      ∀ j, d.buf j = none ∨ d.buf j = dst.buf j := by
  induction n with
  | zero =>
    intro sOff dst dOff d h
    simp [uninitTransferN] at h
  | succ n ih =>
    intro sOff dst dOff d h j
    unfold uninitTransferN at h
    split at h
    · split at h
      · exact absurd h (by simp)
      · rename_i d2 hrec
        rw [Except.error.injEq] at h
        subst h
        by_cases hj : j = dOff
        · left
          simp [hj]
        · rcases ih (sOff + 1) (dst.set dOff none) (dOff + 1) d2 hrec j with hl | hr
          · left
            simpa [hj] using hl
          · right
            simp only [RawMemory.set_buf, if_neg hj] at hr ⊢
            exact hr
    · split at h
      · rw [Except.error.injEq] at h
        subst h
        right
        rfl
      · split at h
        · exact absurd h (by simp)
        · rename_i d2 hrec
          rw [Except.error.injEq] at h
          subst h
          by_cases hj : j = dOff
          · left
            simp [hj]
          · rcases ih _ _ _ _ hrec j with hl | hr
            · left
              simpa [hj] using hl
            · right
              simp only [RawMemory.set_buf, if_neg hj] at hr ⊢
              exact hr

/-- On a successful transfer, `uninitTransferN` leaves every destination slot
outside the written range `[dOff, dOff + n)` unchanged. -/
theorem uninitTransferN_ok_frame (step : α → Except Unit α) (src : Nat → Option α)
    (n : Nat) :
    ∀ (sOff : Nat) (dst : RawMemory α) (dOff : Nat) (d : RawMemory α),
      uninitTransferN step src sOff dst dOff n = Except.ok d →
      ∀ j, (j < dOff ∨ dOff + n ≤ j) → d.buf j = dst.buf j := by
  induction n with
  | zero =>
    intro sOff dst dOff d h
    simp only [uninitTransferN, Except.ok.injEq] at h
    subst h
    intro j _
    rfl
  | succ n ih =>
    intro sOff dst dOff d h j hj
    unfold uninitTransferN at h
    split at h
    · split at h
      · rename_i d2 hrec
        rw [Except.ok.injEq] at h
        subst h
        have hj2 : j < dOff + 1 ∨ dOff + 1 + n ≤ j := by omega
        have := ih (sOff + 1) (dst.set dOff none) (dOff + 1) d2 hrec j hj2
        have hjd : j ≠ dOff := by omega
        simpa [hjd] using this
      · exact absurd h (by simp)
    · split at h
      · exact absurd h (by simp)
      · split at h
        · rename_i d2 hrec
          rw [Except.ok.injEq] at h
          subst h
          have hj2 : j < dOff + 1 ∨ dOff + 1 + n ≤ j := by omega
          have := ih _ _ _ _ hrec j hj2
          have hjd : j ≠ dOff := by omega
          simpa [hjd] using this
        · exact absurd h (by simp)

/-- Core functional specification of `Emplace` (shared by the `Emplace` and
`PushBack`/`EmplaceBack` claims): for any position `p ≤ size_`, the result
returns position `p`, has one more element, holds `x` at slot `p`, keeps the
old elements `[0, p)` in place and shifts the old elements `[p, size_)` one
slot toward the tail. -/
theorem emplace_core {α : Type} (v : Vector α) (p : Nat) (x : α) (hp : p ≤ v.size_) :
    (v.Emplace p x).2 = p ∧
    (v.Emplace p x).1.size_ = v.size_ + 1 ∧
    (v.Emplace p x).1.elemAt p = some x ∧
    (∀ i, i < p → (v.Emplace p x).1.elemAt i = v.elemAt i) ∧
    (∀ i, p ≤ i → i < v.size_ → (v.Emplace p x).1.elemAt (i + 1) = v.elemAt i) := by
  unfold Vector.Emplace
  split
  · refine ⟨rfl, rfl, ?_, ?_, ?_⟩
    · simp only [Vector.elemAt, RawMemory.transferN_buf, RawMemory.constructAt_eq,
        RawMemory.set_buf, RawMemory.allocate_buf]
      split_ifs <;> first | rfl | omega | (exfalso; omega) | (congr 1; omega)
    · intro i hi
      simp only [Vector.elemAt, RawMemory.transferN_buf, RawMemory.constructAt_eq,
        RawMemory.set_buf, RawMemory.allocate_buf]
      split_ifs <;> first | rfl | omega | (exfalso; omega) | (congr 1; omega)
    · intro i hi1 hi2
      simp only [Vector.elemAt, RawMemory.transferN_buf, RawMemory.constructAt_eq,
        RawMemory.set_buf, RawMemory.allocate_buf]
      split_ifs <;> first | rfl | omega | (exfalso; omega) | (congr 1; omega)
  · split
    · rename_i hfull hend
      subst hend
      refine ⟨rfl, rfl, ?_, ?_, ?_⟩
      · simp only [Vector.elemAt, RawMemory.constructAt_eq, RawMemory.set_buf]
        split_ifs <;> first | rfl | omega | (exfalso; omega) | (congr 1; omega)
      · intro i hi
        simp only [Vector.elemAt, RawMemory.constructAt_eq, RawMemory.set_buf]
        split_ifs <;> first | rfl | omega | (exfalso; omega) | (congr 1; omega)
      · intro i hi1 hi2
        omega
    · rename_i hfull hend
      have hplt : p < v.size_ := by omega
      refine ⟨rfl, rfl, ?_, ?_, ?_⟩
      · simp only [Vector.elemAt, RawMemory.constructAt_eq, RawMemory.moveBackN_buf,
          RawMemory.set_buf]
        split_ifs <;> first | rfl | omega | (exfalso; omega) | (congr 1; omega)
      · intro i hi
        simp only [Vector.elemAt, RawMemory.constructAt_eq, RawMemory.moveBackN_buf,
          RawMemory.set_buf]
        split_ifs <;> first | rfl | omega | (exfalso; omega) | (congr 1; omega)
      · intro i hi1 hi2
        simp only [Vector.elemAt, RawMemory.constructAt_eq, RawMemory.moveBackN_buf,
          RawMemory.set_buf]
        split_ifs <;> first | rfl | omega | (exfalso; omega) | (congr 1; omega)

/-- Functional specification of the `PushBack` of `src/unnamed/part_000`
(direct construction when there is spare capacity, `ReallocateAndPush`
otherwise). -/
theorem pushBackB_core {α : Type} (v : Vector α) (x : α) :
    (v.PushBackB x).size_ = v.size_ + 1 ∧
    (v.PushBackB x).elemAt v.size_ = some x ∧
    ∀ i, i < v.size_ → (v.PushBackB x).elemAt i = v.elemAt i := by
  unfold Vector.PushBackB
  split
  · refine ⟨rfl, ?_, ?_⟩
    · simp only [Vector.elemAt, RawMemory.constructAt_eq, RawMemory.set_buf]
      split_ifs <;> first | rfl | omega | (exfalso; omega) | (congr 1; omega)
    · intro i hi
      simp only [Vector.elemAt, RawMemory.constructAt_eq, RawMemory.set_buf]
      split_ifs <;> first | rfl | omega | (exfalso; omega) | (congr 1; omega)
  · refine ⟨rfl, ?_, ?_⟩
    · simp only [Vector.elemAt, RawMemory.constructAt_eq, RawMemory.set_buf,
        RawMemory.transferN_buf, RawMemory.allocate_buf]
      split_ifs <;> first | rfl | omega | (exfalso; omega) | (congr 1; omega)
    · intro i hi
      simp only [Vector.elemAt, RawMemory.constructAt_eq, RawMemory.set_buf,
        RawMemory.transferN_buf, RawMemory.allocate_buf]
      split_ifs <;> first | rfl | omega | (exfalso; omega) | (congr 1; omega)

/-- Claim C1: if an allocation or element-transfer step fails during `Reserve`'s
reallocation or during `Insert`/`Emplace`'s reallocating path (including a
failure constructing the directly-inserted element), the exception propagates
to the caller with the original vector's size, capacity and element values
unchanged, every element already constructed in the new storage destroyed, and
the new storage released (strong exception guarantee). -/
theorem strong_guarantee_on_failure {α : Type} (step : α → Except Unit α)
    (mk : Except Unit α) (allocOk : Bool) (v : Vector α) (k offset : Nat) :
    Vector.errVec (Vector.ReserveF step allocOk v k) v = v ∧
    Vector.errStorageDead (Vector.ReserveF step allocOk v k) ∧
    Vector.errVec (Vector.EmplaceReallocF step mk allocOk v offset) v = v ∧
    Vector.errStorageDead (Vector.EmplaceReallocF step mk allocOk v offset) := by
  have hR : Vector.errVec (Vector.ReserveF step allocOk v k) v = v ∧
      Vector.errStorageDead (Vector.ReserveF step allocOk v k) := by
    unfold Vector.ReserveF
    split
    · exact ⟨rfl, trivial⟩
    · split
      · cases hE : uninitTransferN step v.data_.buf 0 (RawMemory.allocate α k) 0
            v.size_ with
        | error nd =>
          simp only [hE, Vector.errVec, Vector.errStorageDead]
          refine ⟨trivial, fun j => ?_⟩
          rcases uninitTransferN_error_shape step v.data_.buf v.size_ _ _ _ _ hE j with
            hl | hr
          · exact hl
          · simpa using hr
        | ok nd =>
          simp only [hE, Vector.errVec, Vector.errStorageDead]
          exact ⟨trivial, trivial⟩
      · exact ⟨rfl, fun j => rfl⟩
  have hEm : Vector.errVec (Vector.EmplaceReallocF step mk allocOk v offset) v = v ∧
      Vector.errStorageDead (Vector.EmplaceReallocF step mk allocOk v offset) := by
    unfold Vector.EmplaceReallocF
    split
    · cases mk with
      | error u => exact ⟨rfl, fun j => rfl⟩
      | ok x =>
        cases hE1 : uninitTransferN step v.data_.buf 0
            ((RawMemory.allocate α (if v.size_ = 0 then 1 else v.size_ * 2)).constructAt
              offset x) 0 offset with
        | error ndf =>
          simp only [hE1, Vector.errVec, Vector.errStorageDead]
          refine ⟨trivial, fun j => ?_⟩
          by_cases hj : j = offset
          · simp [hj]
          · rcases uninitTransferN_error_shape step v.data_.buf offset _ _ _ _ hE1 j with
              hl | hr
            · simpa [hj] using hl
            · simp only [RawMemory.constructAt_eq, RawMemory.set_buf,
                RawMemory.allocate_buf, if_neg hj] at hr
              simpa [hj] using hr
        | ok nd2 =>
          cases hE2 : uninitTransferN step v.data_.buf offset nd2 (offset + 1)
              (v.size_ - offset) with
          | error ndf =>
            simp only [hE1, hE2, Vector.errVec, Vector.errStorageDead]
            refine ⟨trivial, fun j => ?_⟩
            simp only [RawMemory.destroyN_buf]
            split
            · rfl
            · rename_i hout
              have hjgt : offset < j := by omega
              have hfr := uninitTransferN_ok_frame step v.data_.buf offset _ _ _ _ hE1 j
                (Or.inr (by omega))
              rcases uninitTransferN_error_shape step v.data_.buf (v.size_ - offset)
                  _ _ _ _ hE2 j with hl | hr
              · exact hl
              · rw [hr, hfr]
                simp only [RawMemory.constructAt_eq, RawMemory.set_buf,
                  RawMemory.allocate_buf]
                rw [if_neg (by omega)]
          | ok nd3 =>
            simp only [hE1, hE2, Vector.errVec, Vector.errStorageDead]
            exact ⟨trivial, trivial⟩
    · exact ⟨rfl, fun j => rfl⟩
  exact ⟨hR.1, hR.2, hEm.1, hEm.2⟩

/-- Claim C2: the claim states that every public operation preserves the
representation invariant, but `Erase` does not: the source's
`std::destroy_at(data_.GetAddress() + offset)` destroys the element at the
erase position (which the shift just made live again) instead of the vacated
last slot. Concretely, erasing position 0 of the well-formed vector
`[10, 20, 30]` yields a state of size 2 whose slot 0 is dead and whose slot 2
still holds a live element — the invariant fails. -/
theorem erase_violates_invariant_eval :
    Vector.WF (ofList [10, 20, 30] 3) ∧
    ¬ Vector.WF ((Vector.Erase (ofList [10, 20, 30] 3) 0).1) := by decide

/-- Claim C3: `Insert`/`Emplace` at any position `p ≤ size` yields a vector
whose element at `p` is the inserted value, whose elements before `p` are
unchanged, whose elements from `p` on are shifted one slot toward the tail,
whose size grew by one, and the returned position is `p`. -/
theorem emplace_inserts_at_position {α : Type} (v : Vector α) (p : Nat) (x : α)
    (hp : p ≤ v.size_) :
    (v.Emplace p x).2 = p ∧
    (v.Emplace p x).1.size_ = v.size_ + 1 ∧
    (v.Emplace p x).1.elemAt p = some x ∧
    (∀ i, i < p → (v.Emplace p x).1.elemAt i = v.elemAt i) ∧
    (∀ i, p ≤ i → i < v.size_ → (v.Emplace p x).1.elemAt (i + 1) = v.elemAt i) :=
  emplace_core v p x hp

/-- Witness for C3 at the concrete vector `[1, 2, 3]` (capacity 4), inserting
`9` at position 1. -/
theorem emplace_inserts_at_position_witness :
    ((ofList [1, 2, 3] 4).Emplace 1 9).2 = 1 ∧
    ((ofList [1, 2, 3] 4).Emplace 1 9).1.size_ = (ofList [1, 2, 3] 4).size_ + 1 ∧
    ((ofList [1, 2, 3] 4).Emplace 1 9).1.elemAt 1 = some 9 ∧
    ((ofList [1, 2, 3] 4).Emplace 1 9).1.elemAt 0 = (ofList [1, 2, 3] 4).elemAt 0 ∧
    ((ofList [1, 2, 3] 4).Emplace 1 9).1.elemAt 2 = (ofList [1, 2, 3] 4).elemAt 1 := by
  have h := emplace_inserts_at_position (ofList [1, 2, 3] 4) 1 9 (by decide)
  exact ⟨h.1, h.2.1, h.2.2.1, h.2.2.2.1 0 (by decide), h.2.2.2.2 1 (by decide) (by decide)⟩

/-- Claim C4: the claim states that `Erase(p)` shifts the elements after `p`
toward the front and destroys the now-vacant last live slot, but the source
destroys slot `p` instead (`std::destroy_at(data_.GetAddress() + offset)`).
Erasing position 0 of `[10, 20, 30]`: the returned position and the size
decrement match the claim, but slot 0 — inside the new live range — is left
destroyed, slot 1 holds 30 instead of the expected shifted 20/30 contents, and
slot 2 — the vacated last slot the claim says is destroyed — still holds a
live 30. -/
theorem erase_wrong_slot_eval :
    (Vector.Erase (ofList [10, 20, 30] 3) 0).2 = 0 ∧
    (Vector.Erase (ofList [10, 20, 30] 3) 0).1.size_ = 2 ∧
    (Vector.Erase (ofList [10, 20, 30] 3) 0).1.elemAt 0 = none ∧
    (Vector.Erase (ofList [10, 20, 30] 3) 0).1.elemAt 1 = some 30 ∧
    (Vector.Erase (ofList [10, 20, 30] 3) 0).1.elemAt 2 = some 30 := by decide

/-- Claim C5: after `PushBack(v)` the element at index `old_size` is the pushed
value, the size is `old_size + 1`, the first `old_size` elements are unchanged,
and `EmplaceBack` returns (a reference to) the newly constructed element; this
holds for the `src/vector.h` chain (`PushBack` → `EmplaceBack` → `Emplace` at
`end()`) and for the direct `PushBack` of `src/unnamed/part_000`. -/
theorem pushBack_appends {α : Type} (v : Vector α) (x : α) :
    (v.PushBack x).size_ = v.size_ + 1 ∧
    (v.PushBack x).elemAt v.size_ = some x ∧
    (∀ i, i < v.size_ → (v.PushBack x).elemAt i = v.elemAt i) ∧
    (v.EmplaceBack x).2 = v.size_ ∧
    (v.EmplaceBack x).1.elemAt (v.EmplaceBack x).2 = some x ∧
    (v.PushBackB x).size_ = v.size_ + 1 ∧
    (v.PushBackB x).elemAt v.size_ = some x ∧
    (∀ i, i < v.size_ → (v.PushBackB x).elemAt i = v.elemAt i) := by
  have hb := pushBackB_core v x
  unfold Vector.PushBack Vector.EmplaceBack
  have h := emplace_core v v.size_ x (le_refl _)
  refine ⟨h.2.1, h.2.2.1, h.2.2.2.1, h.1, ?_, hb.1, hb.2.1, hb.2.2⟩
  rw [h.1]
  exact h.2.2.1

/-- Witness for C5 at the concrete full vector `[4]` (capacity 1, so the push
reallocates), pushing `7`. -/
theorem pushBack_appends_witness :
    ((ofList [4] 1).PushBack 7).size_ = (ofList [4] 1).size_ + 1 ∧
    ((ofList [4] 1).PushBack 7).elemAt (ofList [4] 1).size_ = some 7 ∧
    ((ofList [4] 1).PushBack 7).elemAt 0 = (ofList [4] 1).elemAt 0 ∧
    ((ofList [4] 1).PushBackB 7).elemAt (ofList [4] 1).size_ = some 7 ∧
    ((ofList [4] 1).PushBackB 7).elemAt 0 = (ofList [4] 1).elemAt 0 := by
  have h := pushBack_appends (ofList [4] 1) 7
  exact ⟨h.1, h.2.1, h.2.2.1 0 (by decide), h.2.2.2.2.2.2.1,
    h.2.2.2.2.2.2.2 0 (by decide)⟩

/-- Claim C6: `Reserve` is a no-op when the requested capacity does not exceed
the current one; otherwise capacity grows to at least the request and never
below the prior capacity; size and the element values are unchanged in all
cases. -/
theorem reserve_monotonic {α : Type} (v : Vector α) (k : Nat) :
    (k ≤ v.Capacity → v.Reserve k = v) ∧
    v.Capacity ≤ (v.Reserve k).Capacity ∧
    k ≤ (v.Reserve k).Capacity ∧
    (v.Reserve k).size_ = v.size_ ∧
    ∀ i, i < v.size_ → (v.Reserve k).elemAt i = v.elemAt i := by
  unfold Vector.Reserve
  split
  · rename_i h
    exact ⟨fun _ => rfl, le_rfl, h, rfl, fun i _ => rfl⟩
  · rename_i h
    simp only [Vector.Capacity] at h
    refine ⟨fun hk => absurd hk h, ?_, ?_, rfl, ?_⟩
    · simp only [Vector.Capacity, RawMemory.transferN_capacity,
        RawMemory.allocate_capacity]
      omega
    · simp only [Vector.Capacity, RawMemory.transferN_capacity,
        RawMemory.allocate_capacity]
      omega
    · intro i hi
      simp only [Vector.elemAt, RawMemory.transferN_buf, RawMemory.allocate_buf]
      split_ifs <;> first | rfl | omega | (exfalso; omega) | (congr 1; omega)

/-- Witness for C6 at the concrete vector `[10, 20]` (capacity 3): `Reserve 2`
is a no-op and `Reserve 7` grows capacity to at least 7 keeping the elements. -/
theorem reserve_monotonic_witness :
    (ofList [10, 20] 3).Reserve 2 = ofList [10, 20] 3 ∧
    7 ≤ ((ofList [10, 20] 3).Reserve 7).Capacity ∧
    ((ofList [10, 20] 3).Reserve 7).size_ = (ofList [10, 20] 3).size_ ∧
    ((ofList [10, 20] 3).Reserve 7).elemAt 1 = (ofList [10, 20] 3).elemAt 1 :=
  ⟨(reserve_monotonic (ofList [10, 20] 3) 2).1 (by decide),
    (reserve_monotonic (ofList [10, 20] 3) 7).2.2.1,
    (reserve_monotonic (ofList [10, 20] 3) 7).2.2.2.1,
    (reserve_monotonic (ofList [10, 20] 3) 7).2.2.2.2 1 (by decide)⟩

/-- Claim C7: move-construction takes the storage and size in O(1) and leaves
the source empty (`Size() == 0`); the moved-to vector holds the source's
original elements in their original order with its original size. The model is
a total function, reflecting `noexcept`. -/
theorem move_construction_empties_source {α : Type} (v : Vector α) :
    (v.moveCtor).2.Size = 0 ∧
    (v.moveCtor).1.Size = v.Size ∧
    ∀ i, (v.moveCtor).1.elemAt i = v.elemAt i :=
  ⟨rfl, rfl, fun _ => rfl⟩

/-- Claim C8: the claim states `Erase(Insert(pos, v))` restores the pre-insert
contents. `Insert` itself behaves as specified (inserting 5 at position 0 of
`[1, 2]` gives `[5, 1, 2]`), and the buggy `Erase` does return position 0 and
size 2, but the resulting contents are not the pre-insert `[1, 2]`: slot 0 is
left destroyed (the claim requires it to hold 1 again). -/
theorem insert_erase_roundtrip_eval :
    (Vector.Insert (ofList [1, 2] 2) 0 5).2 = 0 ∧
    (Vector.Insert (ofList [1, 2] 2) 0 5).1.elemAt 0 = some 5 ∧
    (Vector.Insert (ofList [1, 2] 2) 0 5).1.elemAt 1 = some 1 ∧
    (Vector.Insert (ofList [1, 2] 2) 0 5).1.elemAt 2 = some 2 ∧
    (Vector.Insert (ofList [1, 2] 2) 0 5).1.size_ = 3 ∧
    (Vector.Erase (Vector.Insert (ofList [1, 2] 2) 0 5).1
        (Vector.Insert (ofList [1, 2] 2) 0 5).2).2 = 0 ∧
    (Vector.Erase (Vector.Insert (ofList [1, 2] 2) 0 5).1
        (Vector.Insert (ofList [1, 2] 2) 0 5).2).1.size_ = 2 ∧
    (Vector.Erase (Vector.Insert (ofList [1, 2] 2) 0 5).1
        (Vector.Insert (ofList [1, 2] 2) 0 5).2).1.elemAt 0 = none ∧
    (Vector.Erase (Vector.Insert (ofList [1, 2] 2) 0 5).1
        (Vector.Insert (ofList [1, 2] 2) 0 5).2).1.elemAt 1 = some 2 := by decide

/-- Claim C9: for `new_size < size`, `Resize(new_size)` destroys exactly the
tail slots `[new_size, size)`, sets the size to `new_size`, leaves the first
`new_size` elements and the capacity unchanged — for the `Resize` of
`src/vector.h` and the `Resize` of `src/unnamed/part_000` alike — and in
particular `Resize(0)` on the 5-element vector `[1, 2, 3, 4, 5]` destroys all
5 elements, has size 0, and leaves the capacity at 5. -/
theorem resize_shrink_destroys_tail {α : Type} [Inhabited α] (v : Vector α)
    (n : Nat) (hwf : v.WF) (hn : n < v.size_) :
    (v.Resize n).size_ = n ∧
    (v.Resize n).Capacity = v.Capacity ∧
    (∀ i, i < n → (v.Resize n).elemAt i = v.elemAt i) ∧
    (∀ i, n ≤ i → i < v.size_ → (v.Resize n).elemAt i = none) ∧
    (∀ i, v.size_ ≤ i → (v.Resize n).elemAt i = v.elemAt i) ∧
    (v.ResizeB n).size_ = n ∧
    (v.ResizeB n).Capacity = v.Capacity ∧
    (∀ i, i < n → (v.ResizeB n).elemAt i = v.elemAt i) ∧
    (∀ i, n ≤ i → i < v.size_ → (v.ResizeB n).elemAt i = none) ∧
    (∀ i, v.size_ ≤ i → (v.ResizeB n).elemAt i = v.elemAt i) ∧
    (Vector.Resize (ofList [1, 2, 3, 4, 5] 5) 0).size_ = 0 ∧
    (Vector.Resize (ofList [1, 2, 3, 4, 5] 5) 0).Capacity =
      (ofList [1, 2, 3, 4, 5] 5).Capacity ∧
    (∀ i, i < 5 → (Vector.Resize (ofList [1, 2, 3, 4, 5] 5) 0).elemAt i = none) := by
  have hcap : ¬ v.Capacity < n := by
    have := hwf.1
    omega
  have hA : (if v.Capacity < n then v.Reserve n else v) = v := if_neg hcap
  unfold Vector.Resize Vector.ResizeB
  rw [hA, if_neg (by omega : ¬ v.size_ < n), if_pos hn]
  refine ⟨rfl, rfl, ?_, ?_, ?_, rfl, rfl, ?_, ?_, ?_, by decide, by decide, by decide⟩ <;>
    first
      | (intro i hi
         simp only [Vector.elemAt, RawMemory.destroyN_buf]
         split_ifs <;> first | rfl | omega | (exfalso; omega))
      | (intro i hi1 hi2
         simp only [Vector.elemAt, RawMemory.destroyN_buf]
         split_ifs <;> first | rfl | omega | (exfalso; omega))

/-- Witness for C9 at the concrete vector `[9, 8, 7]` (capacity 3), resized
to 1. -/
theorem resize_shrink_destroys_tail_witness :
    ((ofList [9, 8, 7] 3).Resize 1).size_ = 1 ∧
    ((ofList [9, 8, 7] 3).Resize 1).Capacity = (ofList [9, 8, 7] 3).Capacity ∧
    ((ofList [9, 8, 7] 3).Resize 1).elemAt 0 = (ofList [9, 8, 7] 3).elemAt 0 ∧
    ((ofList [9, 8, 7] 3).Resize 1).elemAt 2 = none ∧
    ((ofList [9, 8, 7] 3).ResizeB 1).size_ = 1 ∧
    ((ofList [9, 8, 7] 3).ResizeB 1).elemAt 2 = none := by
  have h := resize_shrink_destroys_tail (ofList [9, 8, 7] 3) 1 (by decide) (by decide)
  exact ⟨h.1, h.2.1, h.2.2.1 0 (by decide), h.2.2.2.1 2 (by decide) (by decide),
    h.2.2.2.2.2.1, h.2.2.2.2.2.2.2.2.1 2 (by decide) (by decide)⟩

/-- Claim C10: on a non-empty vector the `assert(size_ > 0)` in `PopBack` is
unreachable (the result is `some`), and `PopBack` destroys exactly the last
live element, decrements the size by one, and leaves the first `size - 1`
elements, the slots beyond the old size, and the capacity unchanged. The
operation is identical in `src/vector.h` and `src/unnamed/part_000`. -/
theorem popBack_removes_last {α : Type} (v : Vector α) (h : 0 < v.size_) :
    v.PopBack.isSome = true ∧
    (v.PopBack.getD v).size_ = v.size_ - 1 ∧
    (v.PopBack.getD v).Capacity = v.Capacity ∧
    (∀ i, i < v.size_ - 1 → (v.PopBack.getD v).elemAt i = v.elemAt i) ∧
    (v.PopBack.getD v).elemAt (v.size_ - 1) = none ∧
    (∀ i, v.size_ ≤ i → (v.PopBack.getD v).elemAt i = v.elemAt i) := by
  have hP : v.PopBack = some ⟨v.data_.destroyAt (v.size_ - 1), v.size_ - 1⟩ := by
    unfold Vector.PopBack
    rw [if_neg (by omega)]
  rw [hP]
  refine ⟨rfl, rfl, rfl, ?_, ?_, ?_⟩
  · intro i hi
    simp only [Option.getD_some, Vector.elemAt, RawMemory.destroyAt_eq,
      RawMemory.set_buf]
    rw [if_neg (by omega)]
  · simp [Vector.elemAt, RawMemory.destroyAt_eq, RawMemory.set_buf]
  · intro i hi
    simp only [Option.getD_some, Vector.elemAt, RawMemory.destroyAt_eq,
      RawMemory.set_buf]
    rw [if_neg (by omega)]

/-- Witness for C10 at the concrete vector `[7, 6]` (capacity 2). -/
theorem popBack_removes_last_witness :
    (ofList [7, 6] 2).PopBack.isSome = true ∧
    ((ofList [7, 6] 2).PopBack.getD (ofList [7, 6] 2)).size_ = 1 ∧
    ((ofList [7, 6] 2).PopBack.getD (ofList [7, 6] 2)).elemAt 0 =
      (ofList [7, 6] 2).elemAt 0 ∧
    ((ofList [7, 6] 2).PopBack.getD (ofList [7, 6] 2)).elemAt 1 = none := by
  have h := popBack_removes_last (ofList [7, 6] 2) (by decide)
  exact ⟨h.1, h.2.1, h.2.2.2.1 0 (by decide), h.2.2.2.2.1⟩

end CV
